import Mathlib

/-!
Verification development for the pyfinder search engine
(`src/search/core.py`).  The definitions below are a shallow embedding of
`SearchEngine` and its helpers; similarity scores and thresholds are
modelled as rationals, the similarity matcher is an abstract function
parameter, and fallible Python operations (`getattr`, `max` on an empty
sequence) are embedded with `Except`.
-/

deriving instance DecidableEq for Except

namespace PyFinder

/-- A similarity matcher: maps (query, candidate value) to a score. -/
abbrev Matcher := String → String → ℚ

/-- Errors a search call can raise: Python `ValueError` (with its message)
and Python `AttributeError` (carrying the missing attribute name). -/
inductive SearchError where
  | valueError (msg : String)
  | attributeError (attr : String)
deriving DecidableEq, Repr

/-- A dataset record: an object exposing named string attributes. -/
structure Record where
  fields : List (String × String)
deriving DecidableEq, Repr

/-- Python `getattr(obj, attr)`: look the attribute up, raising
`AttributeError` when the record lacks it. -/
def getattr (obj : Record) (attr : String) : Except SearchError String :=
  match obj.fields.find? (fun p => p.1 == attr) with
  | some p => .ok p.2
  | none => .error (.attributeError attr)

/-- The dict built by `create_result` in `core.py`:
`{'data': obj, 'match': match, 'rating': score, 'attr': attr}`
(`matchVal` stands for the Python key `match`, a Lean keyword). -/
structure MatchResult where
  data : Record
  matchVal : ℚ
  rating : ℚ
  attr : String
deriving DecidableEq, Repr

/-- The per-attribute dict `{'attr': attr, 'match': match}` built in the
multi-attribute loop of `core.py`. -/
structure AttrMatch where
  attr : String
  matchVal : ℚ
deriving DecidableEq, Repr

/-- Modelled from the spec: the tokenizer's small fixed stop-word set
(spec section 4.1; `search.utils` is not part of `src/`). -/
def stopWords : List String := ["a", "is", "and", "the", "be"]

/-- Split a character list into maximal runs of alphanumeric characters;
`cur` accumulates the current word reversed. -/
def wordsAux : List Char → List Char → List (List Char)
  | [], cur => if cur.isEmpty then [] else [cur.reverse]
  | c :: rest, cur =>
    if c.isAlphanum then wordsAux rest (c :: cur)
    else if cur.isEmpty then wordsAux rest [] else cur.reverse :: wordsAux rest []

/-- Modelled from the spec: `utils.tokenize` (spec section 4.1; the module
`search.utils` is not part of `src/`): lowercase, split on non-alphanumeric
boundaries, drop terms of length at most 2 and stop words, keep order and
duplicates. -/
def tokenize (query : String) : List String :=
  ((wordsAux (query.toList.map Char.toLower) []).map (fun cs => String.mk cs)).filter
    (fun w => decide (3 ≤ w.length) && !(stopWords.contains w))

/-- Modelled from the spec: `utils.normalize` (spec sections 4.2 and 7;
`search.utils` is not part of `src/`): divide each value by the total;
an all-zero sum degenerates to the uniform distribution rather than a
division-by-zero failure. -/
def normalize (values : List ℚ) : List ℚ :=
  let s := values.sum
  if s = 0 then values.map (fun _ => 1 / (values.length : ℚ))
  else values.map (fun v => v / s)

/-- The descending integer ramp `list(range(n, 0, -1))` of `core.py`
line 154: `[n, n-1, ..., 1]`. -/
def rampWeights (n : ℕ) : List ℚ :=
  (List.range n).map (fun i => ((n - i : ℕ) : ℚ))

/-- Modelled from the spec: `utils.generate_weights` (spec section 3;
`search.utils` is not part of `src/`): default weights over the attribute
order are the descending integer ramp (the search path normalizes them
before use, so pre-normalization here would not change any result). -/
def generate_weights (attributes : List String) : List ℚ :=
  rampWeights attributes.length

/-- Python `dict` lookup on an association list built by `dict(zip(...))`:
later bindings override earlier ones, and every key actually looked up by
`core.py` is present, so a default of 0 is never observed. -/
def pyDictGet (l : List (String × ℚ)) (k : String) : ℚ :=
  match (l.filter (fun p => p.1 == k)).getLast? with
  | some p => p.2
  | none => 0

/-- Lines 151-157 of `core.py`: replace an absent or length-mismatched
weight list by the descending ramp, normalize, and zip with the attribute
names into a dict. -/
def multi_weights (weights : List ℚ) (attrs : List String) : List (String × ℚ) :=
  let ws := if weights.isEmpty || decide (weights.length ≠ attrs.length)
    then rampWeights attrs.length else weights
  attrs.zip (normalize ws)

/-- First-occurrence deduplication (Python dict key insertion order). -/
def dedupFirst (l : List String) : List String :=
  l.foldl (fun acc a => if a ∈ acc then acc else acc ++ [a]) []

/-- Modelled from the spec: `utils.generate_weights_from_matches` (spec
section 4.4 step 6; `search.utils` is not part of `src/`): count how many
match results name each attribute as their best attribute and normalize
those counts into adjustment weights. -/
def generate_weights_from_matches (ms : List MatchResult) : List (String × ℚ) :=
  let attrs := dedupFirst (ms.map (fun m => m.attr))
  let counts := attrs.map (fun a => ((ms.filter (fun m => m.attr == a)).length : ℚ))
  attrs.zip (normalize counts)

/-- Python `max(pms, key=lambda m: m['match'])` from line 172 of
`core.py`: raises `ValueError` on an empty sequence, otherwise returns the
first element of maximal score (replacement only on a strictly greater
score, as in CPython). -/
def pymax_match : List AttrMatch → Except SearchError AttrMatch
  | [] => .error (.valueError "max() arg is an empty sequence")
  | p :: ps => .ok (ps.foldl (fun cur q => if cur.matchVal < q.matchVal then q else cur) p)

/-- The inner attribute loop of the multi-attribute path (lines 162-168):
fetch each attribute value (raising on a missing attribute), skip empty
values, and score the rest. -/
def attr_matches (M : Matcher) (query : String) (obj : Record) :
    List String → Except SearchError (List AttrMatch)
  | [] => .ok []
  | attr :: rest =>
    match getattr obj attr with
    | .error e => .error e
    | .ok v =>
      if v.length = 0 then attr_matches M query obj rest
      else
        match attr_matches M query obj rest with
        | .error e => .error e
        | .ok more => .ok (⟨attr, M query v⟩ :: more)

/-- One iteration of the outer multi-attribute loop (lines 159-183): score
the record's attributes, take the Python max, and when the best score
meets the threshold emit the match result with the double-counted total
plus the static weight of the best attribute. -/
def score_object (M : Matcher) (query : String) (T : ℚ) (wdict : List (String × ℚ))
    (attrs : List String) (obj : Record) : Except SearchError (Option MatchResult) :=
  match attr_matches M query obj attrs with
  | .error e => .error e
  | .ok pms =>
    match pymax_match pms with
    | .error e => .error e
    | .ok best =>
      if T ≤ best.matchVal then
        .ok (some ⟨obj, best.matchVal,
          best.matchVal + (pms.map (fun p => p.matchVal)).sum + pyDictGet wdict best.attr,
          best.attr⟩)
      else .ok none

/-- The outer multi-attribute loop over the dataset. -/
def multi_pass (M : Matcher) (query : String) (T : ℚ) (wdict : List (String × ℚ))
    (attrs : List String) : List Record → Except SearchError (List MatchResult)
  | [] => .ok []
  | obj :: rest =>
    match score_object M query T wdict attrs obj with
    | .error e => .error e
    | .ok r =>
      match multi_pass M query T wdict attrs rest with
      | .error e => .error e
      | .ok ms =>
        .ok (match r with
          | some m => m :: ms
          | none => ms)

/-- The single-attribute path (lines 138-148): score the one attribute of
each record and keep the records whose score meets the threshold, with the
rating equal to the raw score. -/
def single_pass (M : Matcher) (query : String) (T : ℚ) (attr : String) :
    List Record → Except SearchError (List MatchResult)
  | [] => .ok []
  | obj :: rest =>
    match getattr obj attr with
    | .error e => .error e
    | .ok v =>
      match single_pass M query T attr rest with
      | .error e => .error e
      | .ok ms =>
        .ok (if T ≤ M query v then ⟨obj, M query v, M query v, attr⟩ :: ms else ms)

/-- Insert a match before the first element of smaller-or-equal rating:
the insertion step of a stable descending insertion sort. -/
def insertDesc (m : MatchResult) : List MatchResult → List MatchResult
  | [] => [m]
  | b :: l => if b.rating ≤ m.rating then m :: b :: l else b :: insertDesc m l

/-- Stable descending insertion sort by rating. -/
def sortDesc : List MatchResult → List MatchResult
  | [] => []
  | a :: l => insertDesc a (sortDesc l)

/-- The stable descending sort of `select_results`
(`matches.sort(key=lambda m: m['rating'], reverse=True)`): Python's sort is
stable and orders by rating descending, which determines its output
uniquely; `sortDesc` is proved sorted and stable below. -/
def sorted_matches (ms : List MatchResult) : List MatchResult :=
  sortDesc ms

/-- `SearchEngine.select_results` (lines 54-62): sort by rating descending,
trim to `limit` when positive, and strip the scoring metadata.  The
`threshold` parameter is unused, exactly as in the source. -/
def select_results (ms : List MatchResult) (threshold : ℚ) (limit : ℤ) : List Record :=
  let s := sorted_matches ms
  let s := if 0 < limit then s.take limit.toNat else s
  s.map (fun m => m.data)

/-- The body of `SearchEngine.search` after the call-time/construction-time
configuration has been resolved (lines 126-198). -/
def search_with (M : Matcher) (attrs : List String) (L : ℤ) (T : ℚ) (W : List ℚ)
    (query : String) (dataset : List Record) : Except SearchError (List Record) :=
  match attrs with
  | [] => .error (.valueError "Missing attributes to search into.")
  | attr1 :: restAttrs =>
    if (tokenize query).length = 0 then .ok []
    else if restAttrs.isEmpty then
      match single_pass M query T attr1 dataset with
      | .error e => .error e
      | .ok ms => .ok (select_results ms T L)
    else
      let wdict := multi_weights W (attr1 :: restAttrs)
      match multi_pass M query T wdict (attr1 :: restAttrs) dataset with
      | .error e => .error e
      | .ok ms =>
        let adjusted := generate_weights_from_matches ms
        let ms2 := ms.map (fun m =>
          (⟨m.data, m.matchVal, m.rating + pyDictGet adjusted m.attr, m.attr⟩ : MatchResult))
        .ok (select_results ms2 T L)

/-- Python truthiness of an optional list (`None` and `[]` are falsy). -/
def listTruthy : Option (List α) → Bool
  | none => false
  | some l => !l.isEmpty

/-- Resolution `x = x or default` for list-valued fields (lines 120-121):
`None` and `[]` are falsy; the two falsy values are interchangeable
downstream, so the resolved value is returned as a plain list. -/
def resolveList (call : Option (List α)) (dflt : Option (List α)) : List α :=
  match call with
  | some l => if l.isEmpty then dflt.getD [] else l
  | none => dflt.getD []

/-- Resolution `limit = limit or self.limit` (line 122): the integer 0 is
falsy in Python, so a call-time 0 falls back to the default. -/
def resolveInt (call : Option ℤ) (dflt : ℤ) : ℤ :=
  match call with
  | some v => if v = 0 then dflt else v
  | none => dflt

/-- Resolution `threshold = threshold or self.threshold` (line 123): the
number 0.0 is falsy in Python. -/
def resolveRat (call : Option ℚ) (dflt : ℚ) : ℚ :=
  match call with
  | some v => if v = 0 then dflt else v
  | none => dflt

/-- Resolution `matcher = matcher or self.matcher` (line 124): a function
object is always truthy, so only `None` falls back. -/
def resolveFun (call : Option Matcher) (dflt : Matcher) : Matcher :=
  call.getD dflt

/-- The construction-time configuration held by a `SearchEngine`. -/
structure SearchEngine where
  attributes : Option (List String)
  limit : ℤ
  threshold : ℚ
  weights : Option (List ℚ)
  matcher : Matcher

/-- `SearchEngine.__init__` (lines 28-39): store the configuration and,
when attributes are given and the weights are falsy or length-mismatched,
regenerate the default weights. -/
def SearchEngine.init (attributes : Option (List String)) (limit : ℤ) (threshold : ℚ)
    (weights : Option (List ℚ)) (matcher : Matcher) : SearchEngine :=
  ⟨attributes, limit, threshold,
    if listTruthy attributes
        && (!listTruthy weights || decide ((attributes.getD []).length ≠ (weights.getD []).length))
      then some (generate_weights (attributes.getD []))
      else weights,
    matcher⟩

/-- `SearchEngine.search` (lines 64-198): resolve each configuration field
from the call-time override and the construction-time default with Python
`or` semantics, then run the resolved search body. -/
def SearchEngine.search (e : SearchEngine) (query : String) (dataset : List Record)
    (attributes : Option (List String)) (limit : Option ℤ) (threshold : Option ℚ)
    (weights : Option (List ℚ)) (matcher : Option Matcher) :
    Except SearchError (List Record) :=
  search_with (resolveFun matcher e.matcher) (resolveList attributes e.attributes)
    (resolveInt limit e.limit) (resolveRat threshold e.threshold)
    (resolveList weights e.weights) query dataset

/-- A simple concrete matcher for concrete evaluations: exact equality. -/
def eqMatcher : Matcher := fun q v => if q = v then 1 else 0

/-- A concrete matcher that scores everything 1. -/
def oneMatcher : Matcher := fun _ _ => 1

/-! Properties of the stable descending sort. -/

open List in
theorem insertDesc_perm (m : MatchResult) (l : List MatchResult) :
    insertDesc m l ~ m :: l := by
  induction l with
  | nil => exact List.Perm.refl _
  | cons b t ih =>
    by_cases h : b.rating ≤ m.rating
    · simp only [insertDesc, if_pos h]
      exact List.Perm.refl _
    · simp only [insertDesc, if_neg h]
      exact (ih.cons b).trans (List.Perm.swap m b t)

open List in
theorem sortDesc_perm (l : List MatchResult) : sortDesc l ~ l := by
  induction l with
  | nil => exact List.Perm.refl _
  | cons a t ih => exact (insertDesc_perm a (sortDesc t)).trans (ih.cons a)

theorem sortDesc_length (l : List MatchResult) : (sortDesc l).length = l.length :=
  (sortDesc_perm l).length_eq

theorem mem_sortDesc {a : MatchResult} {l : List MatchResult} :
    a ∈ sortDesc l ↔ a ∈ l :=
  (sortDesc_perm l).mem_iff

theorem insertDesc_pairwise {m : MatchResult} {l : List MatchResult}
    (h : l.Pairwise (fun a b => b.rating ≤ a.rating)) :
    (insertDesc m l).Pairwise (fun a b => b.rating ≤ a.rating) := by
  induction l with
  | nil => simp [insertDesc]
  | cons b t ih =>
    rcases List.pairwise_cons.mp h with ⟨hb, ht⟩
    by_cases hle : b.rating ≤ m.rating
    · simp only [insertDesc, if_pos hle]
      refine List.pairwise_cons.mpr ⟨?_, h⟩
      intro x hx
      rcases List.mem_cons.mp hx with rfl | hx
      · exact hle
      · exact le_trans (hb x hx) hle
    · simp only [insertDesc, if_neg hle]
      refine List.pairwise_cons.mpr ⟨?_, ih ht⟩
      intro x hx
      rcases List.mem_cons.mp ((insertDesc_perm m t).mem_iff.mp hx) with rfl | hx
      · exact le_of_not_le hle
      · exact hb x hx

theorem sortDesc_pairwise (l : List MatchResult) :
    (sortDesc l).Pairwise (fun a b => b.rating ≤ a.rating) := by
  induction l with
  | nil => simp [sortDesc]
  | cons a t ih => exact insertDesc_pairwise ih

theorem filter_insertDesc (m : MatchResult) (l : List MatchResult) (r : ℚ) :
    (insertDesc m l).filter (fun x => decide (x.rating = r)) =
      if m.rating = r then m :: l.filter (fun x => decide (x.rating = r))
      else l.filter (fun x => decide (x.rating = r)) := by
  induction l with
  | nil => by_cases h : m.rating = r <;> simp [insertDesc, h]
  | cons b t ih =>
    by_cases hle : b.rating ≤ m.rating
    · simp only [insertDesc, if_pos hle]
      by_cases hm : m.rating = r <;> simp [List.filter, hm]
    · simp only [insertDesc, if_neg hle]
      have hbm : m.rating < b.rating := lt_of_not_le hle
      by_cases hm : m.rating = r
      · have hb : ¬ b.rating = r := by
          intro hb; rw [hb, hm] at hbm; exact lt_irrefl r hbm
        simp [List.filter, ih, hm, hb]
      · by_cases hb : b.rating = r <;> simp [List.filter, ih, hm, hb]

theorem sortDesc_stable (l : List MatchResult) (r : ℚ) :
    (sortDesc l).filter (fun x => decide (x.rating = r)) =
      l.filter (fun x => decide (x.rating = r)) := by
  induction l with
  | nil => rfl
  | cons a t ih =>
    by_cases ha : a.rating = r <;>
      simp [sortDesc, filter_insertDesc, ha, ih]

/-! Claim theorems. -/

theorem getattr_error_shape {obj : Record} {attr : String} {e : SearchError}
    (h : getattr obj attr = .error e) : e = .attributeError attr := by
  unfold getattr at h
  cases hf : obj.fields.find? (fun p => p.1 == attr) <;> rw [hf] at h <;> simp_all

/-- C2 as a code bug: a multi-attribute search over a dataset containing a
record all of whose requested attribute values are empty does not skip the
record; it fails with Python's `ValueError` from `max` applied to the
empty sequence of partial matches (`core.py` line 172). -/
theorem claim2_all_empty_record_raises :
    (SearchEngine.init (some ["name", "category"]) (-1) 1 none oneMatcher).search
        "john" [⟨[("name", ""), ("category", "")]⟩] none none none none none =
      .error (.valueError "max() arg is an empty sequence") := by
  decide

/-- C3: when the resolved attribute list is non-empty and the query
tokenizes to the empty term sequence, search returns the empty list as a
success, for every dataset whatsoever (so no record attribute is ever
accessed: the result does not depend on the dataset). -/
theorem claim3_empty_query_short_circuit (e : SearchEngine) (query : String)
    (dataset : List Record) (a0 : Option (List String)) (l0 : Option ℤ)
    (t0 : Option ℚ) (w0 : Option (List ℚ)) (m0 : Option Matcher)
    (hA : resolveList a0 e.attributes ≠ []) (hT : tokenize query = []) :
    e.search query dataset a0 l0 t0 w0 m0 = .ok [] := by
  rcases hres : resolveList a0 e.attributes with _ | ⟨a, rest⟩
  · exact absurd hres hA
  · simp [SearchEngine.search, search_with, hres, hT]

theorem claim3_witness :
    resolveList (some ["name"])
        (SearchEngine.init (some ["name"]) (-1) 1 none eqMatcher).attributes ≠ [] ∧
    tokenize "is a" = [] ∧
    (SearchEngine.init (some ["name"]) (-1) 1 none eqMatcher).search "is a"
        [⟨[]⟩] none none none none none = .ok [] :=
  ⟨by decide, by decide,
    claim3_empty_query_short_circuit _ "is a" [⟨[]⟩] none none none none none
      (by decide) (by decide)⟩

/-- C4: when the attributes list is absent or empty both at call time and
at construction time, search fails with the missing-attributes
configuration error, regardless of the query and the dataset. -/
theorem claim4_missing_attributes (aC : Option (List String)) (lC : ℤ) (tC : ℚ)
    (wC : Option (List ℚ)) (mC : Matcher) (query : String) (dataset : List Record)
    (a0 : Option (List String)) (l0 : Option ℤ) (t0 : Option ℚ)
    (w0 : Option (List ℚ)) (m0 : Option Matcher)
    (hcall : a0 = none ∨ a0 = some []) (hctor : aC = none ∨ aC = some []) :
    (SearchEngine.init aC lC tC wC mC).search query dataset a0 l0 t0 w0 m0 =
      .error (.valueError "Missing attributes to search into.") := by
  have hres : resolveList a0 (SearchEngine.init aC lC tC wC mC).attributes = [] := by
    rcases hcall with h | h <;> rcases hctor with h2 | h2 <;>
      simp [h, h2, SearchEngine.init, resolveList]
  simp [SearchEngine.search, search_with, hres]

theorem claim4_witness :
    (SearchEngine.init none (-1) 1 none eqMatcher).search "john"
        [⟨[("name", "john")]⟩] (some []) none none none none =
      .error (.valueError "Missing attributes to search into.") :=
  claim4_missing_attributes none (-1) (1/2) none eqMatcher "john"
    [⟨[("name", "john")]⟩] (some []) none none none none
    (Or.inr rfl) (Or.inl rfl)

/-- C10: when no attributes are resolvable and the query also tokenizes to
the empty sequence, the missing-attributes check wins: search fails with
the configuration error and does not return the empty list. -/
theorem claim10_config_error_precedence (e : SearchEngine) (query : String)
    (dataset : List Record) (a0 : Option (List String)) (l0 : Option ℤ)
    (t0 : Option ℚ) (w0 : Option (List ℚ)) (m0 : Option Matcher)
    (hA : resolveList a0 e.attributes = []) (hT : tokenize query = []) :
    e.search query dataset a0 l0 t0 w0 m0 =
        .error (.valueError "Missing attributes to search into.") ∧
      e.search query dataset a0 l0 t0 w0 m0 ≠ .ok [] := by
  have h : e.search query dataset a0 l0 t0 w0 m0 =
      .error (.valueError "Missing attributes to search into.") := by
    simp [SearchEngine.search, search_with, hA]
  exact ⟨h, by rw [h]; simp⟩

theorem claim10_witness :
    (SearchEngine.init none (-1) 1 none eqMatcher).search "is a"
        [] none none none none none =
        .error (.valueError "Missing attributes to search into.") ∧
      (SearchEngine.init none (-1) 1 none eqMatcher).search "is a"
        [] none none none none none ≠ .ok [] :=
  claim10_config_error_precedence _ "is a" [] none none none none none
    (by decide) (by decide)

/-- C7 counterexample: a call-time value supplied for a field does not
always override the construction-time default.  Two engines that differ
only in their construction-time limit (1 versus -1) give different
results for the same call that supplies `limit = 0`, because the falsy 0
falls back to the construction-time default instead of overriding it. -/
theorem claim7_counterexample :
    (SearchEngine.init (some ["name"]) 1 1 none eqMatcher).search "john"
        [⟨[("name", "john")]⟩, ⟨[("name", "john")]⟩] none (some 0) none none none ≠
      (SearchEngine.init (some ["name"]) (-1) 1 none eqMatcher).search "john"
        [⟨[("name", "john")]⟩, ⟨[("name", "john")]⟩] none (some 0) none none none := by
  decide

/-- C7 amended: truthy call-time values (a non-empty list, a non-zero
number, any matcher function) override the construction-time default
field-by-field, falsy call-time values (absent, zero, the empty list) fall
back to it, and fields resolve independently: search depends only on the
five per-field resolutions. -/
theorem claim7_field_by_field_resolution :
    (∀ (v : ℤ) (d : ℤ), v ≠ 0 → resolveInt (some v) d = v) ∧
    (∀ d : ℤ, resolveInt none d = d ∧ resolveInt (some 0) d = d) ∧
    (∀ (v : ℚ) (d : ℚ), v ≠ 0 → resolveRat (some v) d = v) ∧
    (∀ d : ℚ, resolveRat none d = d ∧ resolveRat (some 0) d = d) ∧
    (∀ (v : List String) (d : Option (List String)), v ≠ [] → resolveList (some v) d = v) ∧
    (∀ d : Option (List String),
      resolveList none d = d.getD [] ∧ resolveList (some []) d = d.getD []) ∧
    (∀ (f : Matcher) (d : Matcher), resolveFun (some f) d = f) ∧
    (∀ (e1 e2 : SearchEngine) (query : String) (dataset : List Record)
        (a1 l1 t1 w1 m1 a2 l2 t2 w2 m2 : _),
      resolveList a1 e1.attributes = resolveList a2 e2.attributes →
      resolveInt l1 e1.limit = resolveInt l2 e2.limit →
      resolveRat t1 e1.threshold = resolveRat t2 e2.threshold →
      resolveList w1 e1.weights = resolveList w2 e2.weights →
      resolveFun m1 e1.matcher = resolveFun m2 e2.matcher →
      e1.search query dataset a1 l1 t1 w1 m1 = e2.search query dataset a2 l2 t2 w2 m2) := by
  refine ⟨?_, ?_, ?_, ?_, ?_, ?_, ?_, ?_⟩
  · intro v d hv; simp [resolveInt, hv]
  · intro d; exact ⟨rfl, by simp [resolveInt]⟩
  · intro v d hv; simp [resolveRat, hv]
  · intro d; exact ⟨rfl, by simp [resolveRat]⟩
  · intro v d hv; simp [resolveList, hv]
  · intro d; exact ⟨rfl, by simp [resolveList]⟩
  · intro f d; rfl
  · intro e1 e2 query dataset a1 l1 t1 w1 m1 a2 l2 t2 w2 m2 h1 h2 h3 h4 h5
    unfold SearchEngine.search
    rw [h1, h2, h3, h4, h5]

theorem claim7_witness :
    resolveInt (some 7) 5 = 7 ∧ resolveInt none 5 = 5 ∧ resolveInt (some 0) 5 = 5 ∧
    resolveRat (some 3) 1 = 3 ∧ resolveList (some ["a"]) (some ["b"]) = ["a"] ∧
    resolveFun (some eqMatcher) oneMatcher = eqMatcher :=
  ⟨claim7_field_by_field_resolution.1 7 5 (by decide),
    (claim7_field_by_field_resolution.2.1 5).1,
    (claim7_field_by_field_resolution.2.1 5).2,
    claim7_field_by_field_resolution.2.2.1 3 1 (by decide),
    claim7_field_by_field_resolution.2.2.2.2.1 ["a"] (some ["b"]) (by decide),
    claim7_field_by_field_resolution.2.2.2.2.2.2.1 eqMatcher oneMatcher⟩


theorem foldl_max_mem (ps : List AttrMatch) (cur : AttrMatch) :
    ps.foldl (fun cur q => if cur.matchVal < q.matchVal then q else cur) cur ∈ cur :: ps := by
  induction ps generalizing cur with
  | nil => simp
  | cons q t ih =>
    simp only [List.foldl_cons]
    rcases List.mem_cons.mp (ih (if cur.matchVal < q.matchVal then q else cur)) with h | h
    · rw [h]
      by_cases hc : cur.matchVal < q.matchVal
      · simp [hc]
      · simp [hc]
    · exact List.mem_cons_of_mem _ (List.mem_cons_of_mem _ h)

theorem pymax_mem {pms : List AttrMatch} {best : AttrMatch}
    (h : pymax_match pms = .ok best) : best ∈ pms := by
  cases pms with
  | nil => simp [pymax_match] at h
  | cons p ps =>
    simp only [pymax_match, Except.ok.injEq] at h
    subst h
    exact foldl_max_mem ps p

/-- C1: in the multi-attribute path, when a record's best match meets the
threshold, the emitted candidate carries
`rating = best score + (sum of all partial match scores) + normalized
static weight of the best attribute`; since the best partial match is one
of the summed partial matches (first conjunct), the best score is counted
twice in the total. -/
theorem claim1_multi_rating_formula (M : Matcher) (query : String) (T : ℚ)
    (ws : List ℚ) (attrs : List String) (obj : Record) (pms : List AttrMatch)
    (best : AttrMatch)
    (h1 : attr_matches M query obj attrs = .ok pms)
    (h2 : pymax_match pms = .ok best)
    (h3 : T ≤ best.matchVal) :
    best ∈ pms ∧
    score_object M query T (multi_weights ws attrs) attrs obj =
      .ok (some ⟨obj, best.matchVal,
        best.matchVal + (pms.map (fun p => p.matchVal)).sum +
          pyDictGet (multi_weights ws attrs) best.attr,
        best.attr⟩) := by
  refine ⟨pymax_mem h2, ?_⟩
  simp [score_object, h1, h2, h3]

theorem claim1_witness :
    (⟨"name", 1⟩ : AttrMatch) ∈ [(⟨"name", 1⟩ : AttrMatch), ⟨"cat", 1⟩] ∧
    score_object oneMatcher "john" 1 (multi_weights [] ["name", "cat"]) ["name", "cat"]
        ⟨[("name", "x"), ("cat", "y")]⟩ =
      .ok (some ⟨⟨[("name", "x"), ("cat", "y")]⟩, 1,
        1 + ([(⟨"name", 1⟩ : AttrMatch), ⟨"cat", 1⟩].map (fun p => p.matchVal)).sum +
          pyDictGet (multi_weights [] ["name", "cat"]) "name",
        "name"⟩) :=
  claim1_multi_rating_formula oneMatcher "john" 1 [] ["name", "cat"]
    ⟨[("name", "x"), ("cat", "y")]⟩ [⟨"name", 1⟩, ⟨"cat", 1⟩] ⟨"name", 1⟩
    (by decide) (by decide) (by decide)

theorem sum_map_div (l : List ℚ) (s : ℚ) :
    (l.map (fun v => v / s)).sum = l.sum / s := by
  induction l with
  | nil => simp
  | cons a t ih => simp [ih, add_div]

theorem rampWeights_length (n : ℕ) : (rampWeights n).length = n := by
  simp [rampWeights]

theorem rampWeights_pos {n : ℕ} {w : ℚ} (hw : w ∈ rampWeights n) : 0 < w := by
  simp only [rampWeights, List.mem_map, List.mem_range] at hw
  obtain ⟨i, hi, rfl⟩ := hw
  exact_mod_cast Nat.sub_pos_of_lt hi

theorem rampWeights_sum_pos {n : ℕ} (hn : n ≠ 0) : 0 < (rampWeights n).sum := by
  apply List.sum_pos
  · intro x hx; exact rampWeights_pos hx
  · intro h
    exact hn (by simpa [rampWeights_length] using congrArg List.length h)

theorem normalize_length (l : List ℚ) : (normalize l).length = l.length := by
  by_cases h : l.sum = 0 <;> simp [normalize, h]

theorem normalize_of_sum_ne (l : List ℚ) (h : l.sum ≠ 0) :
    normalize l = l.map (fun v => v / l.sum) := by
  simp [normalize, h]

/-- C9: in the multi-attribute path, an absent or length-mismatched weight
list is replaced by the descending integer ramp over the attribute order;
the weight values actually used are the normalized ramp, they sum to
exactly 1, and each is non-negative. -/
theorem claim9_default_ramp_weights (weights : List ℚ) (attrs : List String)
    (hA : attrs ≠ [])
    (hW : weights = [] ∨ weights.length ≠ attrs.length) :
    (multi_weights weights attrs).map Prod.snd = normalize (rampWeights attrs.length) ∧
    ((multi_weights weights attrs).map Prod.snd).sum = 1 ∧
    ∀ w ∈ (multi_weights weights attrs).map Prod.snd, 0 ≤ w := by
  have hn : attrs.length ≠ 0 := by
    intro h; exact hA (List.length_eq_zero.mp h)
  have hcond : (weights.isEmpty || decide (weights.length ≠ attrs.length)) = true := by
    rcases hW with h | h <;> simp [h]
  have hmap : (multi_weights weights attrs).map Prod.snd =
      normalize (rampWeights attrs.length) := by
    unfold multi_weights
    simp only [hcond, if_true]
    apply List.map_snd_zip
    rw [normalize_length, rampWeights_length]
  have hsum0 : (rampWeights attrs.length).sum ≠ 0 := ne_of_gt (rampWeights_sum_pos hn)
  refine ⟨hmap, ?_, ?_⟩
  · rw [hmap, normalize_of_sum_ne _ hsum0, sum_map_div, div_self hsum0]
  · intro w hw
    rw [hmap, normalize_of_sum_ne _ hsum0] at hw
    simp only [List.mem_map] at hw
    obtain ⟨v, hv, rfl⟩ := hw
    exact le_of_lt (div_pos (rampWeights_pos hv) (rampWeights_sum_pos hn))

theorem claim9_witness :
    (multi_weights [] ["name", "cat"]).map Prod.snd = normalize (rampWeights 2) ∧
    ((multi_weights [] ["name", "cat"]).map Prod.snd).sum = 1 ∧
    ∀ w ∈ (multi_weights [] ["name", "cat"]).map Prod.snd, 0 ≤ w :=
  claim9_default_ramp_weights [] ["name", "cat"] (by decide) (Or.inl rfl)

/-- C6: result selection sorts candidates by rating descending with a
stable sort (the filter at every rating value is unchanged, so equal-rated
candidates keep their scan order), truncates to the first `limit` entries
when `limit > 0`, keeps all candidates when `limit ≤ 0`, and returns only
the original record references. -/
theorem claim6_select_results (ms : List MatchResult) (T : ℚ) (limit : ℤ) :
    (sorted_matches ms).Pairwise (fun a b => b.rating ≤ a.rating) ∧
    (∀ r : ℚ, (sorted_matches ms).filter (fun x => decide (x.rating = r)) =
      ms.filter (fun x => decide (x.rating = r))) ∧
    (0 < limit →
      select_results ms T limit = ((sorted_matches ms).take limit.toNat).map (fun m => m.data) ∧
      (select_results ms T limit).length ≤ limit.toNat) ∧
    (limit ≤ 0 →
      select_results ms T limit = (sorted_matches ms).map (fun m => m.data) ∧
      (select_results ms T limit).length = ms.length) ∧
    (∀ x ∈ select_results ms T limit, ∃ m ∈ ms, m.data = x) := by
  refine ⟨sortDesc_pairwise ms, fun r => sortDesc_stable ms r, ?_, ?_, ?_⟩
  · intro h
    refine ⟨by simp [select_results, h], ?_⟩
    simp only [select_results, if_pos h, List.length_map, List.length_take]
    exact min_le_left _ _
  · intro h
    have hnl : ¬ 0 < limit := not_lt.mpr h
    refine ⟨by simp [select_results, hnl], ?_⟩
    simp [select_results, hnl, sorted_matches, sortDesc_length]
  · intro x hx
    by_cases hl : 0 < limit
    · simp only [select_results, if_pos hl, List.mem_map] at hx
      obtain ⟨m, hm, rfl⟩ := hx
      exact ⟨m, mem_sortDesc.mp (List.mem_of_mem_take hm), rfl⟩
    · simp only [select_results, if_neg hl, List.mem_map] at hx
      obtain ⟨m, hm, rfl⟩ := hx
      exact ⟨m, mem_sortDesc.mp hm, rfl⟩

theorem claim6_witness :
    (select_results [⟨⟨[]⟩, 1, 1, "name"⟩, ⟨⟨[]⟩, 1, 2, "name"⟩] 1 1).length ≤ (1 : ℤ).toNat ∧
    (select_results [⟨⟨[]⟩, 1, 1, "name"⟩, ⟨⟨[]⟩, 1, 2, "name"⟩] 1 (-1)).length =
      ([⟨⟨[]⟩, 1, 1, "name"⟩, ⟨⟨[]⟩, 1, 2, "name"⟩] : List MatchResult).length :=
  ⟨((claim6_select_results [⟨⟨[]⟩, 1, 1, "name"⟩, ⟨⟨[]⟩, 1, 2, "name"⟩] 1 1).2.2.1
      (by decide)).2,
    ((claim6_select_results [⟨⟨[]⟩, 1, 1, "name"⟩, ⟨⟨[]⟩, 1, 2, "name"⟩] 1 (-1)).2.2.2.1
      (by decide)).2⟩


/-- Reference candidate list for the single-attribute path, following the
spec's words (section 4.3): one candidate per record whose score meets the
threshold, with the rating equal to the raw similarity score. -/
def single_ref (M : Matcher) (query : String) (T : ℚ) (attr : String)
    (dataset : List Record) : List MatchResult :=
  dataset.filterMap (fun obj =>
    match getattr obj attr with
    | .ok v => if T ≤ M query v then some ⟨obj, M query v, M query v, attr⟩ else none
    | .error _ => none)

theorem single_pass_eq (M : Matcher) (query : String) (T : ℚ) (attr : String) :
    ∀ (ds : List Record), (∀ obj ∈ ds, (getattr obj attr).isOk = true) →
      single_pass M query T attr ds = .ok (single_ref M query T attr ds) := by
  intro ds
  induction ds with
  | nil => intro _; simp [single_pass, single_ref]
  | cons obj rest ih =>
    intro h
    have hobj := h obj (List.mem_cons_self obj rest)
    cases hg : getattr obj attr with
    | error e => rw [hg] at hobj; simp [Except.isOk, Except.toBool] at hobj
    | ok v =>
      have hrest := ih (fun o ho => h o (List.mem_cons_of_mem _ ho))
      by_cases hT : T ≤ M query v <;>
        simp [single_pass, single_ref, List.filterMap_cons, hg, hrest, hT]

theorem search_with_single (M : Matcher) (L : ℤ) (T : ℚ) (W : List ℚ) (query : String)
    (attr : String) (dataset : List Record)
    (hq : tokenize query ≠ [])
    (hok : ∀ obj ∈ dataset, (getattr obj attr).isOk = true) :
    search_with M [attr] L T W query dataset =
      .ok (select_results (single_ref M query T attr dataset) T L) := by
  have hlen : ¬ (tokenize query).length = 0 := by
    simpa [List.length_eq_zero] using hq
  simp [search_with, hlen, single_pass_eq M query T attr dataset hok]

/-- C5: with exactly one requested attribute (and a query that does not
short-circuit, over records that all expose the attribute), search
succeeds with exactly the threshold-filtered candidates of `single_ref`,
each candidate's rating is the raw similarity score, and the weights
configuration (construction-time or call-time) has no influence on the
result. -/
theorem claim5_single_attribute_path (A : Option (List String)) (LC : ℤ) (TC : ℚ)
    (WC WCa : Option (List ℚ)) (MC : Matcher) (query : String) (dataset : List Record)
    (attr : String) (l0 : Option ℤ) (t0 : Option ℚ) (w0 w0a : Option (List ℚ))
    (m0 : Option Matcher)
    (hq : tokenize query ≠ [])
    (hok : ∀ obj ∈ dataset, (getattr obj attr).isOk = true) :
    (SearchEngine.init A LC TC WC MC).search query dataset (some [attr]) l0 t0 w0 m0 =
      .ok (select_results
        (single_ref (resolveFun m0 MC) query (resolveRat t0 TC) attr dataset)
        (resolveRat t0 TC) (resolveInt l0 LC)) ∧
    (∀ m ∈ single_ref (resolveFun m0 MC) query (resolveRat t0 TC) attr dataset,
      m.rating = m.matchVal) ∧
    (SearchEngine.init A LC TC WC MC).search query dataset (some [attr]) l0 t0 w0 m0 =
      (SearchEngine.init A LC TC WCa MC).search query dataset (some [attr]) l0 t0 w0a m0 := by
  have hmain : ∀ (WX wx : Option (List ℚ)),
      (SearchEngine.init A LC TC WX MC).search query dataset (some [attr]) l0 t0 wx m0 =
        .ok (select_results
          (single_ref (resolveFun m0 MC) query (resolveRat t0 TC) attr dataset)
          (resolveRat t0 TC) (resolveInt l0 LC)) := by
    intro WX wx
    have hstep : (SearchEngine.init A LC TC WX MC).search query dataset (some [attr]) l0 t0 wx m0 =
        search_with (resolveFun m0 MC) (resolveList (some [attr]) A) (resolveInt l0 LC)
          (resolveRat t0 TC) (resolveList wx ((SearchEngine.init A LC TC WX MC).weights))
          query dataset := rfl
    rw [hstep, show resolveList (some [attr]) A = [attr] from by simp [resolveList]]
    exact search_with_single _ _ _ _ query attr dataset hq hok
  refine ⟨hmain WC w0, ?_, (hmain WC w0).trans (hmain WCa w0a).symm⟩
  intro m hm
  simp only [single_ref, List.mem_filterMap] at hm
  obtain ⟨obj, hobj, hf⟩ := hm
  cases hg : getattr obj attr with
  | error e => rw [hg] at hf; simp at hf
  | ok v =>
    rw [hg] at hf
    by_cases hT : resolveRat t0 TC ≤ resolveFun m0 MC query v
    · simp [hT] at hf
      subst hf
      rfl
    · simp [hT] at hf

theorem claim5_witness :
    (SearchEngine.init (some ["name"]) (-1) 1 (some [5]) eqMatcher).search "john"
        [⟨[("name", "john")]⟩, ⟨[("name", "jane")]⟩] (some ["name"]) none none none none =
      .ok (select_results
        (single_ref (resolveFun none eqMatcher) "john" (resolveRat none 1) "name"
          [⟨[("name", "john")]⟩, ⟨[("name", "jane")]⟩])
        (resolveRat none 1) (resolveInt none (-1))) ∧
    (∀ m ∈ single_ref (resolveFun none eqMatcher) "john" (resolveRat none 1) "name"
        [⟨[("name", "john")]⟩, ⟨[("name", "jane")]⟩], m.rating = m.matchVal) ∧
    (SearchEngine.init (some ["name"]) (-1) 1 (some [5]) eqMatcher).search "john"
        [⟨[("name", "john")]⟩, ⟨[("name", "jane")]⟩] (some ["name"]) none none none none =
      (SearchEngine.init (some ["name"]) (-1) 1 none eqMatcher).search "john"
        [⟨[("name", "john")]⟩, ⟨[("name", "jane")]⟩] (some ["name"]) none none
        (some [3]) none :=
  claim5_single_attribute_path (some ["name"]) (-1) 1 (some [5]) none eqMatcher "john"
    [⟨[("name", "john")]⟩, ⟨[("name", "jane")]⟩] "name" none none none (some [3]) none
    (by decide) (by decide)

theorem attr_matches_ok (M : Matcher) (query : String) (obj : Record) :
    ∀ (attrs : List String), (∀ a ∈ attrs, (getattr obj a).isOk = true) →
      ∃ pms, attr_matches M query obj attrs = .ok pms := by
  intro attrs
  induction attrs with
  | nil => intro _; exact ⟨[], rfl⟩
  | cons a rest ih =>
    intro h
    have ha := h a (List.mem_cons_self a rest)
    obtain ⟨v, hv⟩ : ∃ v, getattr obj a = .ok v := by
      cases hg : getattr obj a with
      | ok v => exact ⟨v, rfl⟩
      | error e => rw [hg] at ha; simp [Except.isOk, Except.toBool] at ha
    obtain ⟨pms, hpms⟩ := ih (fun x hx => h x (List.mem_cons_of_mem _ hx))
    by_cases hv0 : v.length = 0
    · exact ⟨pms, by simp [attr_matches, hv, hv0, hpms]⟩
    · exact ⟨⟨a, M query v⟩ :: pms, by simp [attr_matches, hv, hv0, hpms]⟩

theorem string_length_zero {v : String} (h : v.length = 0) : v = "" := by
  cases v with
  | mk data =>
    have hd : data = [] := List.length_eq_zero.mp h
    subst hd
    rfl

theorem attr_matches_ok_nonempty (M : Matcher) (query : String) (obj : Record) :
    ∀ (attrs : List String), (∀ a ∈ attrs, (getattr obj a).isOk = true) →
      (¬ ∀ a ∈ attrs, getattr obj a = .ok "") →
      ∃ pms, attr_matches M query obj attrs = .ok pms ∧ pms ≠ [] := by
  intro attrs
  induction attrs with
  | nil =>
    intro _ hne
    exact absurd (fun a ha => absurd ha (List.not_mem_nil a)) hne
  | cons a rest ih =>
    intro h hne
    have ha := h a (List.mem_cons_self a rest)
    obtain ⟨v, hv⟩ : ∃ v, getattr obj a = .ok v := by
      cases hg : getattr obj a with
      | ok v => exact ⟨v, rfl⟩
      | error e => rw [hg] at ha; simp [Except.isOk, Except.toBool] at ha
    by_cases hv0 : v.length = 0
    · have hve : v = "" := string_length_zero hv0
      subst hve
      have hne2 : ¬ ∀ x ∈ rest, getattr obj x = .ok "" := by
        intro hall
        apply hne
        intro x hx
        rcases List.mem_cons.mp hx with rfl | hx2
        · exact hv
        · exact hall x hx2
      obtain ⟨pms, hpms, hnil⟩ := ih (fun x hx => h x (List.mem_cons_of_mem _ hx)) hne2
      exact ⟨pms, by simp [attr_matches, hv, hpms], hnil⟩
    · obtain ⟨pms, hpms⟩ :=
        attr_matches_ok M query obj rest (fun x hx => h x (List.mem_cons_of_mem _ hx))
      exact ⟨⟨a, M query v⟩ :: pms, by simp [attr_matches, hv, hv0, hpms], by simp⟩

theorem score_object_ok (M : Matcher) (query : String) (T : ℚ)
    (wdict : List (String × ℚ)) (attrs : List String) (obj : Record)
    (hall : ∀ a ∈ attrs, (getattr obj a).isOk = true)
    (hne : ¬ ∀ a ∈ attrs, getattr obj a = .ok "") :
    ∃ r, score_object M query T wdict attrs obj = .ok r := by
  obtain ⟨pms, hpms, hnil⟩ := attr_matches_ok_nonempty M query obj attrs hall hne
  cases pms with
  | nil => exact absurd rfl hnil
  | cons p ps =>
    simp only [score_object, hpms, pymax_match]
    by_cases hT :
        T ≤ (ps.foldl (fun cur q => if cur.matchVal < q.matchVal then q else cur) p).matchVal
    · rw [if_pos hT]
      exact ⟨_, rfl⟩
    · rw [if_neg hT]
      exact ⟨_, rfl⟩

theorem attr_matches_error (M : Matcher) (query : String) (obj : Record) :
    ∀ (attrs : List String), (∃ a ∈ attrs, (getattr obj a).isOk = false) →
      ∃ a, attr_matches M query obj attrs = .error (.attributeError a) := by
  intro attrs
  induction attrs with
  | nil =>
    rintro ⟨a, ha, _⟩
    exact absurd ha (List.not_mem_nil a)
  | cons a rest ih =>
    rintro ⟨x, hx, hxf⟩
    cases hg : getattr obj a with
    | error e => exact ⟨a, by simp [attr_matches, hg, getattr_error_shape hg]⟩
    | ok v =>
      have hxrest : x ∈ rest := by
        rcases List.mem_cons.mp hx with rfl | hr
        · rw [hg] at hxf; simp [Except.isOk, Except.toBool] at hxf
        · exact hr
      obtain ⟨a2, ha2⟩ := ih ⟨x, hxrest, hxf⟩
      by_cases hv0 : v.length = 0
      · exact ⟨a2, by simp [attr_matches, hg, hv0, ha2]⟩
      · exact ⟨a2, by simp [attr_matches, hg, hv0, ha2]⟩

theorem score_object_error (M : Matcher) (query : String) (T : ℚ)
    (wdict : List (String × ℚ)) (attrs : List String) (obj : Record)
    (hmiss : ∃ a ∈ attrs, (getattr obj a).isOk = false) :
    ∃ a, score_object M query T wdict attrs obj = .error (.attributeError a) := by
  obtain ⟨a, ha⟩ := attr_matches_error M query obj attrs hmiss
  exact ⟨a, by simp [score_object, ha]⟩

theorem multi_pass_error (M : Matcher) (query : String) (T : ℚ)
    (wdict : List (String × ℚ)) (attrs : List String) :
    ∀ (ds : List Record),
      (∀ r ∈ ds, ¬ ∀ a ∈ attrs, getattr r a = .ok "") →
      (∃ r ∈ ds, ∃ a ∈ attrs, (getattr r a).isOk = false) →
      ∃ a, multi_pass M query T wdict attrs ds = .error (.attributeError a) := by
  intro ds
  induction ds with
  | nil =>
    rintro _ ⟨r, hr, _⟩
    exact absurd hr (List.not_mem_nil r)
  | cons obj rest ih =>
    intro h2 hex
    by_cases hobj : ∃ a ∈ attrs, (getattr obj a).isOk = false
    · obtain ⟨a, ha⟩ := score_object_error M query T wdict attrs obj hobj
      exact ⟨a, by simp [multi_pass, ha]⟩
    · have hall : ∀ a ∈ attrs, (getattr obj a).isOk = true := by
        intro a ha
        cases hb : (getattr obj a).isOk with
        | false => exact absurd ⟨a, ha, hb⟩ hobj
        | true => rfl
      obtain ⟨r0, hr0⟩ :=
        score_object_ok M query T wdict attrs obj hall (h2 obj (List.mem_cons_self _ _))
      have hex2 : ∃ r ∈ rest, ∃ a ∈ attrs, (getattr r a).isOk = false := by
        obtain ⟨r, hr, ha⟩ := hex
        rcases List.mem_cons.mp hr with rfl | hr2
        · exact absurd ha hobj
        · exact ⟨r, hr2, ha⟩
      obtain ⟨a, ha⟩ := ih (fun r hr => h2 r (List.mem_cons_of_mem _ hr)) hex2
      exact ⟨a, by simp [multi_pass, hr0, ha]⟩

theorem single_pass_error (M : Matcher) (query : String) (T : ℚ) (attr : String) :
    ∀ (ds : List Record), (∃ r ∈ ds, (getattr r attr).isOk = false) →
      ∃ a, single_pass M query T attr ds = .error (.attributeError a) := by
  intro ds
  induction ds with
  | nil =>
    rintro ⟨r, hr, _⟩
    exact absurd hr (List.not_mem_nil r)
  | cons obj rest ih =>
    rintro ⟨r, hr, hrf⟩
    cases hg : getattr obj attr with
    | error e => exact ⟨attr, by simp [single_pass, hg, getattr_error_shape hg]⟩
    | ok v =>
      have hrrest : r ∈ rest := by
        rcases List.mem_cons.mp hr with rfl | h
        · rw [hg] at hrf; simp [Except.isOk, Except.toBool] at hrf
        · exact h
      obtain ⟨a, ha⟩ := ih ⟨r, hrrest, hrf⟩
      exact ⟨a, by simp [single_pass, hg, ha]⟩

/-- C8 counterexample: the claim as stated fails when the query tokenizes
to the empty sequence: the dataset record lacks the requested attribute
`name`, yet search returns the empty result list instead of failing with
the missing-attribute error. -/
theorem claim8_counterexample :
    getattr ⟨[]⟩ "name" = .error (.attributeError "name") ∧
    (SearchEngine.init (some ["name"]) (-1) 1 none eqMatcher).search "of a"
        [⟨[]⟩] none none none none none = .ok [] :=
  ⟨by decide, by decide⟩

/-- C8 amended: provided the query tokenizes to a non-empty term sequence
and no scanned record consists entirely of present-but-empty requested
attribute values (which would hit the empty-`max` failure first), a
dataset containing a record that lacks a requested attribute makes the
whole search call fail with a missing-attribute error: no result list is
returned and the record is not silently skipped. -/
theorem claim8_missing_attribute_error (e : SearchEngine) (query : String)
    (dataset : List Record) (a0 : Option (List String)) (l0 : Option ℤ)
    (t0 : Option ℚ) (w0 : Option (List ℚ)) (m0 : Option Matcher)
    (hq : tokenize query ≠ [])
    (h2 : ∀ r ∈ dataset, ¬ ∀ a ∈ resolveList a0 e.attributes, getattr r a = .ok "")
    (hmiss : ∃ r ∈ dataset, ∃ a ∈ resolveList a0 e.attributes,
      (getattr r a).isOk = false) :
    ∃ a, e.search query dataset a0 l0 t0 w0 m0 = .error (.attributeError a) := by
  have hlen : ¬ (tokenize query).length = 0 := by
    simpa [List.length_eq_zero] using hq
  rcases hres : resolveList a0 e.attributes with _ | ⟨a1, rest⟩
  · rw [hres] at hmiss
    obtain ⟨r, _, a, ha, _⟩ := hmiss
    exact absurd ha (List.not_mem_nil a)
  · rw [hres] at h2 hmiss
    cases rest with
    | nil =>
      have hm1 : ∃ r ∈ dataset, (getattr r a1).isOk = false := by
        obtain ⟨r, hr, a, ha, hf⟩ := hmiss
        rcases List.mem_cons.mp ha with rfl | h
        · exact ⟨r, hr, hf⟩
        · exact absurd h (List.not_mem_nil a)
      obtain ⟨a, ha⟩ := single_pass_error (resolveFun m0 e.matcher) query
        (resolveRat t0 e.threshold) a1 dataset hm1
      exact ⟨a, by simp [SearchEngine.search, hres, search_with, hlen, ha]⟩
    | cons a2 rest2 =>
      obtain ⟨a, ha⟩ := multi_pass_error (resolveFun m0 e.matcher) query
        (resolveRat t0 e.threshold)
        (multi_weights (resolveList w0 e.weights) (a1 :: a2 :: rest2))
        (a1 :: a2 :: rest2) dataset h2 hmiss
      exact ⟨a, by simp [SearchEngine.search, hres, search_with, hlen, ha]⟩

theorem claim8_witness :
    ∃ a, (SearchEngine.init (some ["name", "cat"]) (-1) 1 none eqMatcher).search "john"
        [⟨[("name", "john"), ("cat", "x")]⟩, ⟨[("name", "x")]⟩] none none none none none =
      .error (.attributeError a) :=
  claim8_missing_attribute_error _ "john"
    [⟨[("name", "john"), ("cat", "x")]⟩, ⟨[("name", "x")]⟩] none none none none none
    (by decide) (by decide) (by decide)


end PyFinder
